import Mathlib

/-!
Verification of the OCR-worker candidate ranker
(`bookclub-app/backend/ocr-worker/handler.py`).

The Python module is embedded shallowly: strings are `String` (lists of
characters), Python floats are modelled as exact rationals `ℚ`, a fallible
computation returns `Option`/`Except`, and the library call
`sorted(..., key=salience, reverse=True)` — a stable descending sort — is
embedded as a stable insertion sort `sortD`, proved below to be a
permutation of its input, sorted by descending salience, and stable.
-/

namespace OcrWorker

/-! ## Python string primitives used by the module -/

/-- Python `str.lower()` restricted to the character-wise case fold. -/
def lowerStr (s : String) : String := ⟨s.data.map Char.toLower⟩

/-- Python `str.strip()` on a character list: drop whitespace from both ends. -/
def stripChars (l : List Char) : List Char :=
  ((l.dropWhile Char.isWhitespace).reverse.dropWhile Char.isWhitespace).reverse

/-- Python `str.strip()`. -/
def stripStr (s : String) : String := ⟨stripChars s.data⟩

/-- Python `str.split()` with no arguments: split on runs of whitespace,
dropping empty chunks.  The first argument accumulates the current word
in reverse. -/
def pyWords : List Char → List Char → List (List Char)
  | cur, [] => if cur.isEmpty then [] else [cur.reverse]
  | cur, c :: cs =>
    if c.isWhitespace then
      if cur.isEmpty then pyWords [] cs else cur.reverse :: pyWords [] cs
    else
      pyWords (c :: cur) cs

/-- Python `' '.join(words)`. -/
def joinSp : List (List Char) → List Char
  | [] => []
  | [w] => w
  | w :: ws => w ++ ' ' :: joinSp ws

/-- The inner `_norm` of `_heuristic_candidates` (handler.py lines 72–73):
`' '.join(s.replace('\n', ' ').split())[:200]` — collapse all whitespace
runs into single spaces, trim the ends, and truncate to 200 characters. -/
def norm (s : String) : String :=
  ⟨(joinSp (pyWords [] (s.data.map fun c => if c = '\n' then ' ' else c))).take 200⟩

/-- Boolean test that `pat` is a leading segment of the second list. -/
def leadsB : List Char → List Char → Bool
  | [], _ => true
  | _ :: _, [] => false
  | a :: as, b :: bs => a == b && leadsB as bs

/-- Python substring test `pat in s` on character lists. -/
def containsB : List Char → List Char → Bool
  | pat, [] => leadsB pat []
  | pat, c :: rest => leadsB pat (c :: rest) || containsB pat rest

/-- Python `pat in s` on strings. -/
def containsStr (s pat : String) : Bool := containsB pat.data s.data

/-! ## The geometric area estimator `_bbox_area` (handler.py lines 48–52) -/

/-- Python `max(l)` over rationals; `none` models the `ValueError` raised on
an empty list. -/
def maxL : List ℚ → Option ℚ
  | [] => none
  | x :: xs => some (xs.foldl max x)

/-- Python `min(l)` over rationals; `none` models the `ValueError` raised on
an empty list. -/
def minL : List ℚ → Option ℚ
  | [] => none
  | x :: xs => some (xs.foldl min x)

/-- `_bbox_area(bbox)` (handler.py lines 48–52):
`max(0.0, max(xs) - min(xs)) * max(0.0, max(ys) - min(ys))` where `xs`, `ys`
are the point coordinates.  `none` models the exception raised when the point
list is empty. -/
def bboxArea (bbox : List (ℚ × ℚ)) : Option ℚ :=
  match maxL (bbox.map Prod.fst), minL (bbox.map Prod.fst),
        maxL (bbox.map Prod.snd), minL (bbox.map Prod.snd) with
  | some mx, some nx, some my, some ny =>
      some (max 0 (mx - nx) * max 0 (my - ny))
  | _, _, _, _ => none

/-! ## Parsing the raw OCR result (handler.py lines 57–67) -/

/-- One raw entry of the engine result `[[bbox], (text, conf)]`.
`text = none` models `item[1][0]` not being a string (the
`isinstance(text, str)` guard); an empty `bbox` models the malformed-box
case in which `_bbox_area` raises and the `except: continue` branch fires. -/
structure RawItem where
  bbox : List (ℚ × ℚ)
  text : Option String
  conf : ℚ
deriving DecidableEq

/-- A parsed line `(text, conf, area)` as appended to `lines` at line 65. -/
abbrev Line := String × ℚ × ℚ

/-- The loop body of handler.py lines 58–67: compute the area, require the
text to be a non-empty string, and store `(text.strip(), conf, area)`;
`none` models both the `except: continue` branch and the falsy-text guard. -/
def parseItem (it : RawItem) : Option Line :=
  match bboxArea it.bbox with
  | none => none
  | some area =>
    match it.text with
    | none => none
    | some s => if s = "" then none else some (stripStr s, it.conf, area)

/-- The `lines` list accumulated by handler.py lines 57–67. -/
def parseLines (items : List RawItem) : List Line := items.filterMap parseItem

/-! ## Salience and the stable descending sort (handler.py line 70) -/

/-- The sort key of line 70: `conf * (1.0 + area / 10000.0)`. -/
def salience (l : Line) : ℚ := l.2.1 * (1 + l.2.2 / 10000)

/-- Insert `a` into a descending-sorted list, after every strictly more
salient element and before every element of equal or lower salience; this is
the insertion step of a stable descending sort. -/
def insertD (a : Line) : List Line → List Line
  | [] => [a]
  | b :: bs => if salience a < salience b then b :: insertD a bs else a :: b :: bs

/-- Stable sort by descending salience, the behaviour of Python
`sorted(lines, key=salience, reverse=True)` at line 70.  It is proved below
to be sorted by descending salience, a permutation of the input, and stable
(ties keep input order). -/
def sortD : List Line → List Line
  | [] => []
  | a :: as => insertD a (sortD as)

/-- The `ranked` list of handler.py line 70 as a function of the raw batch. -/
def rankedOf (items : List RawItem) : List Line := sortD (parseLines items)

/-! ## Classification (handler.py lines 75–86) -/

/-- Python `round(conf, 3)` modelled as rounding to the nearest multiple
of `1/1000`. -/
def round3 (q : ℚ) : ℚ := (round (q * 1000) : ℤ) / 1000

/-- An output candidate dict `{"value": ..., "confidence": ...}`. -/
structure Cand where
  value : String
  confidence : ℚ
deriving DecidableEq

/-- Line 83 marker test: `any(x in t for x in [',', ' and ', ' & '])`. -/
def hasAuthorMarker (t : String) : Bool :=
  containsStr t "," || containsStr t " and " || containsStr t " & "

/-- The candidate built for a ranked line (lines 84 and 86). -/
def toCand (l : Line) : Cand := ⟨norm l.1, round3 l.2.1⟩

/-- The classification loop of handler.py lines 78–86 over an already ranked
and truncated list: skip lines whose normalized text is empty or shorter
than 3 characters, send marker-bearing lines shorter than 80 characters to
the author list, everything else to the title list. -/
def classifyAux : List Line → List Cand × List Cand
  | [] => ([], [])
  | (text, conf, _) :: rest =>
    let p := classifyAux rest
    let t := norm text
    if t = "" ∨ t.length < 3 then p
    else if hasAuthorMarker t ∧ t.length < 80 then
      (p.1, ⟨t, round3 conf⟩ :: p.2)
    else
      (⟨t, round3 conf⟩ :: p.1, p.2)

/-! ## Deduplication (handler.py lines 89–97) -/

/-- The loop of `_dedup` before the final `[:5]`: keep the first occurrence
of each non-empty lowercased value, tracking the `seen` set as a list. -/
def dedupAux (seen : List String) : List Cand → List Cand
  | [] => []
  | it :: rest =>
    let v := lowerStr it.value
    if v ≠ "" ∧ v ∉ seen then it :: dedupAux (v :: seen) rest
    else dedupAux seen rest

/-- `_dedup(items)` (handler.py lines 89–97). -/
def dedup (items : List Cand) : List Cand := (dedupAux [] items).take 5

/-- `_heuristic_candidates(ocr_result)` (handler.py lines 55–99). -/
def heuristicCandidates (items : List RawItem) : List Cand × List Cand :=
  let p := classifyAux ((rankedOf items).take 20)
  (dedup p.1, dedup p.2)

/-! ## The Lambda entrypoint `handler` (handler.py lines 102–137) -/

/-- The job payload: the three optional fields read from `event`. -/
structure Event where
  s3Bucket : Option String
  s3Key : Option String
  imageUrl : Option String

/-- The result dict returned by `handler`. -/
structure HandlerResult where
  title_candidates : List Cand
  author_candidates : List Cand
  language_guess : String
  error : Option String
deriving DecidableEq

/-- Python truthiness of `event.get(...)`: present and a non-empty string. -/
def truthy : Option String → Bool
  | none => false
  | some s => s ≠ ""

/-- The `try` block of `handler` (lines 108–130).  The two download helpers
and the recognition engine are external collaborators, passed as fallible
oracles; `Except.error` models a raised exception. -/
def handlerTry (dS3 : String → String → Except String String)
    (dHttp : String → Except String String)
    (runOcr : String → Except String (List RawItem))
    (event : Event) : Except String (List Cand × List Cand) :=
  if !(truthy event.s3Bucket && truthy event.s3Key) && !truthy event.imageUrl then
    Except.error "Missing image location: provide s3Bucket/s3Key or imageUrl"
  else
    (if truthy event.s3Bucket && truthy event.s3Key then
      dS3 (event.s3Bucket.getD "") (event.s3Key.getD "")
    else
      dHttp (event.imageUrl.getD "")).bind fun path =>
    (runOcr path).bind fun items =>
      Except.ok (heuristicCandidates items)

/-- `handler(event, _context)` (handler.py lines 102–137): a total function —
the `except` branch (lines 131–137) turns any failure into the uniform
result shape with an `error` message and empty candidate lists, so no
exception ever propagates to the caller. -/
def handler (dS3 : String → String → Except String String)
    (dHttp : String → Except String String)
    (runOcr : String → Except String (List RawItem))
    (event : Event) : HandlerResult :=
  match handlerTry dS3 dHttp runOcr event with
  | Except.ok (titles, authors) => ⟨titles, authors, "en", none⟩
  | Except.error e => ⟨[], [], "en", some e⟩

/-! ## Proof development

Batteries marks the arithmetic of `Rat` as irreducible for elaboration
performance; concrete evaluation proofs below need it unfolded. -/

attribute [local semireducible] Rat.mul Rat.inv Rat.add Rat.sub Rat.ofScientific

/-! ### The stable descending sort: permutation, sortedness, stability -/

theorem mem_insertD {a x : Line} : ∀ {l : List Line}, x ∈ insertD a l ↔ x = a ∨ x ∈ l
  | [] => by simp [insertD]
  | b :: bs => by
    rw [insertD]
    by_cases h : salience a < salience b
    · rw [if_pos h]
      simp only [List.mem_cons, mem_insertD (l := bs)]
      tauto
    · rw [if_neg h]
      simp only [List.mem_cons]

theorem insertD_perm (a : Line) : ∀ (l : List Line), List.Perm (insertD a l) (a :: l)
  | [] => List.Perm.refl _
  | b :: bs => by
    rw [insertD]
    by_cases h : salience a < salience b
    · rw [if_pos h]
      exact ((insertD_perm a bs).cons b).trans (List.Perm.swap a b bs)
    · rw [if_neg h]

theorem sortD_perm : ∀ (l : List Line), List.Perm (sortD l) l
  | [] => List.Perm.refl _
  | a :: as => (insertD_perm a (sortD as)).trans ((sortD_perm as).cons a)

theorem insertD_pairwise {a : Line} : ∀ {l : List Line},
    l.Pairwise (fun x y => salience y ≤ salience x) →
    (insertD a l).Pairwise (fun x y => salience y ≤ salience x)
  | [], _ => by simp [insertD]
  | b :: bs, h => by
    rw [insertD]
    rcases List.pairwise_cons.mp h with ⟨hb, hbs⟩
    by_cases hab : salience a < salience b
    · rw [if_pos hab]
      refine List.pairwise_cons.mpr ⟨?_, insertD_pairwise hbs⟩
      intro x hx
      rcases mem_insertD.mp hx with rfl | hx
      · exact le_of_lt hab
      · exact hb x hx
    · rw [if_neg hab]
      push_neg at hab
      refine List.pairwise_cons.mpr ⟨?_, h⟩
      intro x hx
      rcases List.mem_cons.mp hx with rfl | hx
      · exact hab
      · exact le_trans (hb x hx) hab

theorem sortD_pairwise : ∀ (l : List Line),
    (sortD l).Pairwise (fun x y => salience y ≤ salience x)
  | [] => List.Pairwise.nil
  | _ :: as => insertD_pairwise (sortD_pairwise as)

theorem sublist_insertD (a : Line) : ∀ (l : List Line), List.Sublist l (insertD a l)
  | [] => List.nil_sublist _
  | b :: bs => by
    rw [insertD]
    by_cases hab : salience a < salience b
    · rw [if_pos hab]
      exact (sublist_insertD a bs).cons₂ b
    · rw [if_neg hab]
      exact List.sublist_cons_self a (b :: bs)

theorem insertD_pair {a b : Line} (hle : salience b ≤ salience a) :
    ∀ {m : List Line}, b ∈ m → List.Sublist [a, b] (insertD a m)
  | c :: cs, hb => by
    rw [insertD]
    by_cases hac : salience a < salience c
    · rw [if_pos hac]
      rcases List.mem_cons.mp hb with rfl | hb
      · exact absurd hle (not_le.mpr hac)
      · exact (insertD_pair hle hb).cons c
    · rw [if_neg hac]
      exact (List.singleton_sublist.mpr hb).cons₂ a

theorem sortD_stable {a b : Line} (hle : salience b ≤ salience a) :
    ∀ {l : List Line}, List.Sublist [a, b] l → List.Sublist [a, b] (sortD l)
  | x :: xs, h => by
    rw [sortD]
    cases h with
    | cons _ h => exact (sortD_stable hle h).trans (sublist_insertD x (sortD xs))
    | cons₂ _ h =>
      exact insertD_pair hle ((sortD_perm xs).mem_iff.mpr (List.singleton_sublist.mp h))

/-! ### Characterization of the classification loop -/

theorem length_pos_of_ne_nil {t : String} (h : 3 ≤ t.length) : ¬(t = "" ∨ t.length < 3) := by
  rintro (rfl | hlt)
  · simp [String.length] at h
  · omega

theorem classifyAux_eq : ∀ l : List Line,
    classifyAux l =
      ((l.filter fun x => decide (3 ≤ (norm x.1).length) &&
          !(hasAuthorMarker (norm x.1) && decide ((norm x.1).length < 80))).map toCand,
       (l.filter fun x => decide (3 ≤ (norm x.1).length) &&
          (hasAuthorMarker (norm x.1) && decide ((norm x.1).length < 80))).map toCand)
  | [] => rfl
  | (text, conf, area) :: rest => by
    have ih := classifyAux_eq rest
    rw [classifyAux]
    simp only [List.filter_cons]
    by_cases hq : 3 ≤ (norm text).length
    · rw [if_neg (length_pos_of_ne_nil hq)]
      by_cases hA : (hasAuthorMarker (norm text) && decide ((norm text).length < 80)) = true
      · have hA' : hasAuthorMarker (norm text) ∧ (norm text).length < 80 := by
          simpa using hA
        rw [if_pos hA']
        simp [ih, hq, hA, toCand]
      · have hA' : ¬(hasAuthorMarker (norm text) ∧ (norm text).length < 80) := by
          simpa using hA
        rw [if_neg hA']
        simp [ih, hq, hA, toCand]
    · have hcond : norm text = "" ∨ (norm text).length < 3 := by omega
      rw [if_pos hcond]
      have : ¬ 3 ≤ (norm text).length := hq
      simp [ih, this]

/-! ### Properties of the deduplication loop -/

theorem mem_dedupAux {x : Cand} : ∀ {seen : List String} {l : List Cand},
    x ∈ dedupAux seen l →
    lowerStr x.value ≠ "" ∧ lowerStr x.value ∉ seen ∧
    ∃ l1 l2, l = l1 ++ x :: l2 ∧ ∀ y ∈ l1, lowerStr y.value ≠ lowerStr x.value
  | _, [], h => absurd h (List.not_mem_nil x)
  | seen, it :: rest, h => by
    rw [dedupAux] at h
    by_cases hc : lowerStr it.value ≠ "" ∧ lowerStr it.value ∉ seen
    · rw [if_pos hc] at h
      rcases List.mem_cons.mp h with rfl | h
      · exact ⟨hc.1, hc.2, [], rest, rfl, by simp⟩
      · obtain ⟨hne, hns, l1, l2, hdec, hall⟩ := mem_dedupAux h
        have hnv : lowerStr it.value ≠ lowerStr x.value := by
          intro e
          exact hns (by rw [← e]; exact List.mem_cons_self _ _)
        refine ⟨hne, fun hs => hns (List.mem_cons_of_mem _ hs), it :: l1, l2, by
          rw [List.cons_append, hdec], ?_⟩
        intro y hy
        rcases List.mem_cons.mp hy with rfl | hy
        · exact hnv
        · exact hall y hy
    · rw [if_neg hc] at h
      obtain ⟨hne, hns, l1, l2, hdec, hall⟩ := mem_dedupAux h
      refine ⟨hne, hns, it :: l1, l2, by rw [List.cons_append, hdec], ?_⟩
      intro y hy
      rcases List.mem_cons.mp hy with rfl | hy
      · intro e
        rcases not_and_or.mp hc with h1 | h2
        · push_neg at h1
          exact hne (by rw [← e, h1])
        · push_neg at h2
          exact hns (e ▸ h2)
      · exact hall y hy

theorem dedupAux_pairwise : ∀ (seen : List String) (l : List Cand),
    (dedupAux seen l).Pairwise fun x y => lowerStr x.value ≠ lowerStr y.value
  | _, [] => List.Pairwise.nil
  | seen, it :: rest => by
    rw [dedupAux]
    by_cases hc : lowerStr it.value ≠ "" ∧ lowerStr it.value ∉ seen
    · rw [if_pos hc]
      refine List.pairwise_cons.mpr ⟨?_, dedupAux_pairwise _ rest⟩
      intro x hx
      have hns := (mem_dedupAux hx).2.1
      intro e
      exact hns (by rw [← e]; exact List.mem_cons_self _ _)
    · rw [if_neg hc]
      exact dedupAux_pairwise seen rest

theorem mem_of_mem_dedup {x : Cand} {l : List Cand} (h : x ∈ dedup l) : x ∈ l := by
  obtain ⟨-, -, l1, l2, hdec, -⟩ := mem_dedupAux (List.mem_of_mem_take h)
  rw [hdec]
  exact List.mem_append_right l1 (List.mem_cons_self _ _)

theorem dedup_length_le (l : List Cand) : (dedup l).length ≤ 5 := by
  rw [dedup]
  exact (List.length_take_le 5 _)

/-! ### Folded maxima and minima of coordinate lists -/

theorem seed_le_foldl_max (x : ℚ) : ∀ (l : List ℚ), x ≤ l.foldl max x
  | [] => le_refl x
  | y :: ys => le_trans (le_max_left x y) (seed_le_foldl_max (max x y) ys)

theorem mem_le_foldl_max (x : ℚ) : ∀ (l : List ℚ) (q : ℚ), q ∈ l → q ≤ l.foldl max x
  | [], q, hq => absurd hq (List.not_mem_nil q)
  | y :: ys, q, hq => by
    rw [List.foldl_cons]
    rcases List.mem_cons.mp hq with rfl | hq
    · exact le_trans (le_max_right x q) (seed_le_foldl_max (max x q) ys)
    · exact mem_le_foldl_max (max x y) ys q hq

theorem foldl_max_mem (x : ℚ) : ∀ (l : List ℚ), l.foldl max x ∈ x :: l
  | [] => List.mem_singleton_self x
  | y :: ys => by
    rw [List.foldl_cons]
    rcases List.mem_cons.mp (foldl_max_mem (max x y) ys) with h | h
    · rw [h]
      rcases max_choice x y with hxy | hxy
      · rw [hxy]; exact List.mem_cons_self _ _
      · rw [hxy]; exact List.mem_cons_of_mem _ (List.mem_cons_self _ _)
    · exact List.mem_cons_of_mem _ (List.mem_cons_of_mem _ h)

theorem foldl_min_le_seed (x : ℚ) : ∀ (l : List ℚ), l.foldl min x ≤ x
  | [] => le_refl x
  | y :: ys => le_trans (foldl_min_le_seed (min x y) ys) (min_le_left x y)

theorem foldl_min_le_mem (x : ℚ) : ∀ (l : List ℚ) (q : ℚ), q ∈ l → l.foldl min x ≤ q
  | [], q, hq => absurd hq (List.not_mem_nil q)
  | y :: ys, q, hq => by
    rw [List.foldl_cons]
    rcases List.mem_cons.mp hq with rfl | hq
    · exact le_trans (foldl_min_le_seed (min x q) ys) (min_le_right x q)
    · exact foldl_min_le_mem (min x y) ys q hq

theorem foldl_min_mem (x : ℚ) : ∀ (l : List ℚ), l.foldl min x ∈ x :: l
  | [] => List.mem_singleton_self x
  | y :: ys => by
    rw [List.foldl_cons]
    rcases List.mem_cons.mp (foldl_min_mem (min x y) ys) with h | h
    · rw [h]
      rcases min_choice x y with hxy | hxy
      · rw [hxy]; exact List.mem_cons_self _ _
      · rw [hxy]; exact List.mem_cons_of_mem _ (List.mem_cons_self _ _)
    · exact List.mem_cons_of_mem _ (List.mem_cons_of_mem _ h)

/-! ### Batch congruence for the pipeline -/

theorem parseLines_append (xs ys : List RawItem) :
    parseLines (xs ++ ys) = parseLines xs ++ parseLines ys := by
  rw [parseLines, parseLines, parseLines, List.filterMap_append]

theorem heuristic_ext {xs ys : List RawItem} (h : parseLines xs = parseLines ys) :
    heuristicCandidates xs = heuristicCandidates ys := by
  unfold heuristicCandidates rankedOf
  rw [h]

/-! ## The claims -/

/-- C3: for every non-empty list of numeric points, `_bbox_area` returns
`(max xs − min xs) * (max ys − min ys)` where each factor is floored at 0,
the extrema really are the maximum and minimum of the coordinate lists, and
the returned area is never negative. -/
theorem bboxArea_axis_aligned (p : ℚ × ℚ) (ps : List (ℚ × ℚ)) :
    ∃ mx nx my ny : ℚ,
      maxL ((p :: ps).map Prod.fst) = some mx ∧
      minL ((p :: ps).map Prod.fst) = some nx ∧
      maxL ((p :: ps).map Prod.snd) = some my ∧
      minL ((p :: ps).map Prod.snd) = some ny ∧
      mx ∈ (p :: ps).map Prod.fst ∧ (∀ q ∈ (p :: ps).map Prod.fst, q ≤ mx) ∧
      nx ∈ (p :: ps).map Prod.fst ∧ (∀ q ∈ (p :: ps).map Prod.fst, nx ≤ q) ∧
      my ∈ (p :: ps).map Prod.snd ∧ (∀ q ∈ (p :: ps).map Prod.snd, q ≤ my) ∧
      ny ∈ (p :: ps).map Prod.snd ∧ (∀ q ∈ (p :: ps).map Prod.snd, ny ≤ q) ∧
      bboxArea (p :: ps) = some (max 0 (mx - nx) * max 0 (my - ny)) ∧
      0 ≤ max 0 (mx - nx) * max 0 (my - ny) := by
  refine ⟨(ps.map Prod.fst).foldl max p.1, (ps.map Prod.fst).foldl min p.1,
          (ps.map Prod.snd).foldl max p.2, (ps.map Prod.snd).foldl min p.2,
          rfl, rfl, rfl, rfl,
          foldl_max_mem _ _, ?_, foldl_min_mem _ _, ?_,
          foldl_max_mem _ _, ?_, foldl_min_mem _ _, ?_,
          rfl, mul_nonneg (le_max_left 0 _) (le_max_left 0 _)⟩
  all_goals intro q hq
  · rcases List.mem_cons.mp hq with rfl | hq
    · exact seed_le_foldl_max _ _
    · exact mem_le_foldl_max _ _ q hq
  · rcases List.mem_cons.mp hq with rfl | hq
    · exact foldl_min_le_seed _ _
    · exact foldl_min_le_mem _ _ q hq
  · rcases List.mem_cons.mp hq with rfl | hq
    · exact seed_le_foldl_max _ _
    · exact mem_le_foldl_max _ _ q hq
  · rcases List.mem_cons.mp hq with rfl | hq
    · exact foldl_min_le_seed _ _
    · exact foldl_min_le_mem _ _ q hq

/-- Witness for C3 at a concrete quadrilateral. -/
theorem bboxArea_axis_aligned_witness :
    ∃ mx nx my ny : ℚ,
      maxL (([((0:ℚ),(0:ℚ)), (10,2), (10,10), (0,10)]).map Prod.fst) = some mx ∧
      minL (([((0:ℚ),(0:ℚ)), (10,2), (10,10), (0,10)]).map Prod.fst) = some nx ∧
      maxL (([((0:ℚ),(0:ℚ)), (10,2), (10,10), (0,10)]).map Prod.snd) = some my ∧
      minL (([((0:ℚ),(0:ℚ)), (10,2), (10,10), (0,10)]).map Prod.snd) = some ny ∧
      mx ∈ ([((0:ℚ),(0:ℚ)), (10,2), (10,10), (0,10)]).map Prod.fst ∧
      (∀ q ∈ ([((0:ℚ),(0:ℚ)), (10,2), (10,10), (0,10)]).map Prod.fst, q ≤ mx) ∧
      nx ∈ ([((0:ℚ),(0:ℚ)), (10,2), (10,10), (0,10)]).map Prod.fst ∧
      (∀ q ∈ ([((0:ℚ),(0:ℚ)), (10,2), (10,10), (0,10)]).map Prod.fst, nx ≤ q) ∧
      my ∈ ([((0:ℚ),(0:ℚ)), (10,2), (10,10), (0,10)]).map Prod.snd ∧
      (∀ q ∈ ([((0:ℚ),(0:ℚ)), (10,2), (10,10), (0,10)]).map Prod.snd, q ≤ my) ∧
      ny ∈ ([((0:ℚ),(0:ℚ)), (10,2), (10,10), (0,10)]).map Prod.snd ∧
      (∀ q ∈ ([((0:ℚ),(0:ℚ)), (10,2), (10,10), (0,10)]).map Prod.snd, ny ≤ q) ∧
      bboxArea [((0:ℚ),(0:ℚ)), (10,2), (10,10), (0,10)] =
        some (max 0 (mx - nx) * max 0 (my - ny)) ∧
      0 ≤ max 0 (mx - nx) * max 0 (my - ny) :=
  bboxArea_axis_aligned (0, 0) [(10,2), (10,10), (0,10)]

/-- C4 (amended): a detection whose bbox is the empty point list is excluded
from ranking without error and without changing the outputs computed from
the other detections of the batch; but a detection whose bbox has only three
numeric points is not excluded — it is parsed into the ranking with the
axis-aligned bounding-box area of the three points present. -/
theorem malformed_bbox_handling (l1 l2 : List RawItem) (t : Option String) (c : ℚ)
    (x y z : ℚ × ℚ) (s : String) (hs : s ≠ "") (c2 : ℚ) :
    heuristicCandidates (l1 ++ ⟨[], t, c⟩ :: l2) = heuristicCandidates (l1 ++ l2) ∧
    parseItem ⟨[x, y, z], some s, c2⟩ =
      some (stripStr s, c2,
        max 0 (max (max x.1 y.1) z.1 - min (min x.1 y.1) z.1) *
        max 0 (max (max x.2 y.2) z.2 - min (min x.2 y.2) z.2)) := by
  constructor
  · apply heuristic_ext
    rw [parseLines_append, parseLines_append]
    congr 1
  · simp only [parseItem, bboxArea, maxL, minL, List.map_cons, List.map_nil,
      List.foldl_cons, List.foldl_nil]
    rw [if_neg hs]

/-- Witness for C4 at concrete inputs. -/
theorem malformed_bbox_handling_witness :
    ("Hi St" : String) ≠ "" ∧
    (heuristicCandidates [⟨[], some "ignored", 1/2⟩] = heuristicCandidates [] ∧
     parseItem ⟨[((0:ℚ),(0:ℚ)), (10,0), (10,10)], some "Hi St", 9/10⟩ =
       some (stripStr "Hi St", 9/10,
         max 0 (max (max (0:ℚ) 10) 10 - min (min (0:ℚ) 10) 10) *
         max 0 (max (max (0:ℚ) 0) 10 - min (min (0:ℚ) 0) 10))) :=
  ⟨by decide,
   by
    have h := malformed_bbox_handling [] [] (some "ignored") (1/2)
      (0, 0) (10, 0) (10, 10) "Hi St" (by decide) (9/10)
    simpa using h⟩

/-- Counterexample to C4 as stated: a detection whose bbox has exactly three
numeric points is parsed into the ranking (the `lines` list) and produces an
output candidate, so it is not excluded. -/
theorem malformed_bbox_cex :
    parseLines [⟨[(0,0), (10,0), (10,10)], some "Hello World", 9/10⟩] =
      [("Hello World", 9/10, 100)] ∧
    heuristicCandidates [⟨[(0,0), (10,0), (10,10)], some "Hello World", 9/10⟩] =
      ([⟨"Hello World", 9/10⟩], []) := by
  exact ⟨by decide, by decide⟩

/-- C6 (amended): on the two-detection Gatsby batch the ranker returns BOTH
normalized texts as title candidates, in salience order, and no author
candidates; the spec's expected output omits the second title entry. -/
theorem gatsby_scenario :
    heuristicCandidates
      [⟨[(0,0), (10,0), (10,10), (0,10)], some "The Great Gatsby", 19/20⟩,
       ⟨[(0,0), (10,0), (10,5), (0,5)], some "F. Scott Fitzgerald", 4/5⟩] =
      ([⟨"The Great Gatsby", 19/20⟩, ⟨"F. Scott Fitzgerald", 4/5⟩], []) := by
  decide

/-- Counterexample to C6 as stated: the ranker's output on the Gatsby batch
is not the single-title output claimed by the spec. -/
theorem gatsby_scenario_cex :
    heuristicCandidates
      [⟨[(0,0), (10,0), (10,10), (0,10)], some "The Great Gatsby", 19/20⟩,
       ⟨[(0,0), (10,0), (10,5), (0,5)], some "F. Scott Fitzgerald", 4/5⟩] ≠
      ([⟨"The Great Gatsby", 19/20⟩], []) := by
  decide

/-- C10: classification substring tests are case-sensitive while
deduplication case-folds, so one batch can put the same case-folded value in
both output categories: "X and Y" goes to the author list, "X AND Y" to the
title list, and both lowercase to the same string. -/
theorem cross_category_duplicate :
    heuristicCandidates
      [⟨[(0,0), (10,0), (10,10), (0,10)], some "X and Y", 9/10⟩,
       ⟨[(0,0), (10,0), (10,10), (0,10)], some "X AND Y", 4/5⟩] =
      ([⟨"X AND Y", 4/5⟩], [⟨"X and Y", 9/10⟩]) ∧
    lowerStr "X AND Y" = lowerStr "X and Y" := by
  exact ⟨by decide, by decide⟩

/-- C1: over the ranked top-20 of any batch, the classification stage keeps
exactly the lines whose normalized text has length at least 3, and sends a
kept line to the author list if and only if its normalized text contains
a comma, the substring " and ", or the substring " & ", and has length
strictly less than 80; every other kept line goes to the title list, so each
qualifying line lands in exactly one of the two complementary categories. -/
theorem classification_rule (items : List RawItem) :
    classifyAux ((rankedOf items).take 20) =
      ((((rankedOf items).take 20).filter fun x =>
          decide (3 ≤ (norm x.1).length) &&
          !((containsStr (norm x.1) "," || containsStr (norm x.1) " and " ||
             containsStr (norm x.1) " & ") && decide ((norm x.1).length < 80))).map toCand,
       (((rankedOf items).take 20).filter fun x =>
          decide (3 ≤ (norm x.1).length) &&
          ((containsStr (norm x.1) "," || containsStr (norm x.1) " and " ||
            containsStr (norm x.1) " & ") && decide ((norm x.1).length < 80))).map toCand) := by
  have h := classifyAux_eq ((rankedOf items).take 20)
  simpa only [hasAuthorMarker] using h

/-- A single-detection batch used to witness C1: the spec scenario
"Jane Austen, Mary Shelley" (comma, length < 80) classifies author-like. -/
def demoC1 : List RawItem :=
  [⟨[(0,0), (10,0), (10,10), (0,10)], some "Jane Austen, Mary Shelley", 9/10⟩]

/-- Witness for C1 at a concrete batch. -/
theorem classification_rule_witness :
    classifyAux ((rankedOf demoC1).take 20) =
      ((((rankedOf demoC1).take 20).filter fun x =>
          decide (3 ≤ (norm x.1).length) &&
          !((containsStr (norm x.1) "," || containsStr (norm x.1) " and " ||
             containsStr (norm x.1) " & ") && decide ((norm x.1).length < 80))).map toCand,
       (((rankedOf demoC1).take 20).filter fun x =>
          decide (3 ≤ (norm x.1).length) &&
          ((containsStr (norm x.1) "," || containsStr (norm x.1) " and " ||
            containsStr (norm x.1) " & ") && decide ((norm x.1).length < 80))).map toCand) ∧
    heuristicCandidates demoC1 = ([], [⟨"Jane Austen, Mary Shelley", 9/10⟩]) :=
  ⟨classification_rule demoC1, by decide⟩

/-- C2: the ranked list is a permutation of the well-formed parsed lines,
sorted by descending salience `conf * (1 + area / 10000)`, the sort is
stable (a pair in input order whose first element has at least the salience
of the second keeps that order), and the two outputs are computed from
exactly the first 20 entries of the ranking. -/
theorem ranking_spec (items : List RawItem) :
    List.Perm (rankedOf items) (parseLines items) ∧
    (rankedOf items).Pairwise (fun a b => salience b ≤ salience a) ∧
    (∀ a b : Line, salience b ≤ salience a →
      List.Sublist [a, b] (parseLines items) →
      List.Sublist [a, b] (rankedOf items)) ∧
    heuristicCandidates items =
      (dedup (classifyAux ((rankedOf items).take 20)).1,
       dedup (classifyAux ((rankedOf items).take 20)).2) :=
  ⟨sortD_perm _, sortD_pairwise _, fun _ _ h hs => sortD_stable h hs, rfl⟩

/-- A two-detection batch of equal salience used to witness C2 stability. -/
def demoC2 : List RawItem :=
  [⟨[(0,0), (0,0), (0,0), (0,0)], some "Alpha One", 1/2⟩,
   ⟨[(0,0), (0,0), (0,0), (0,0)], some "Beta Two", 1/2⟩]

/-- Witness for C2: two equal-salience lines keep their input order in the
ranking. -/
theorem ranking_spec_witness :
    salience ("Beta Two", 1/2, 0) ≤ salience ("Alpha One", 1/2, 0) ∧
    List.Sublist [("Alpha One", 1/2, 0), ("Beta Two", 1/2, 0)] (rankedOf demoC2) := by
  have hle : salience ("Beta Two", 1/2, 0) ≤ salience ("Alpha One", 1/2, 0) := by decide
  have he : parseLines demoC2 = [("Alpha One", 1/2, 0), ("Beta Two", 1/2, 0)] := by decide
  refine ⟨hle, (ranking_spec demoC2).2.2.1 _ _ hle ?_⟩
  rw [he]

/-- C5 (amended): a detection with strictly higher confidence is never
ranked below one with lower confidence PROVIDED its bounding-box area is at
least as large (and confidence and area of the lower one are nonnegative):
its salience is then strictly larger, so the pair can never appear in the
ranking in the other order.  Without the area side condition the claim is
false (see the counterexample). -/
theorem confidence_dominates (items : List RawItem) (a b : Line)
    (hc0 : 0 ≤ b.2.1) (hc : b.2.1 < a.2.1) (ha0 : 0 ≤ b.2.2) (hab : b.2.2 ≤ a.2.2) :
    salience b < salience a ∧ ¬ List.Sublist [b, a] (rankedOf items) := by
  have hdiv : b.2.2 / 10000 ≤ a.2.2 / 10000 := by
    apply div_le_div_of_nonneg_right hab
    norm_num
  have hd0 : (0:ℚ) ≤ b.2.2 / 10000 := div_nonneg ha0 (by norm_num)
  have hs : salience b < salience a := by
    rw [salience, salience]
    calc b.2.1 * (1 + b.2.2 / 10000) ≤ b.2.1 * (1 + a.2.2 / 10000) :=
          mul_le_mul_of_nonneg_left (by linarith) hc0
      _ < a.2.1 * (1 + a.2.2 / 10000) := by
          apply mul_lt_mul_of_pos_right hc
          linarith
  refine ⟨hs, fun hsub => ?_⟩
  have hp := (sortD_pairwise (parseLines items)).sublist hsub
  have hba : salience a ≤ salience b :=
    (List.pairwise_cons.mp hp).1 a (List.mem_singleton_self a)
  exact absurd hba (not_le.mpr hs)

/-- Witness for C5 at concrete lines. -/
theorem confidence_dominates_witness :
    (0:ℚ) ≤ 1/2 ∧ (1/2:ℚ) < 9/10 ∧ (0:ℚ) ≤ 5 ∧ (5:ℚ) ≤ 5 ∧
    (salience ("Y", 1/2, 5) < salience ("X", 9/10, 5) ∧
     ¬ List.Sublist [("Y", 1/2, 5), ("X", 9/10, 5)] (rankedOf [])) :=
  ⟨by norm_num, by norm_num, by norm_num, by norm_num,
   confidence_dominates [] ("X", 9/10, 5) ("Y", 1/2, 5)
     (by norm_num) (by norm_num) (by norm_num) (by norm_num)⟩

/-- Counterexample to C5 as stated: a low-confidence detection with a large
bounding box (confidence 4/5, area 10000) outranks a higher-confidence small
one (confidence 9/10, area 0), so strictly higher confidence alone does not
protect a detection from being ranked below a lower-confidence one. -/
theorem confidence_dominates_cex :
    (4:ℚ)/5 < 9/10 ∧
    rankedOf [⟨[(0,0), (0,0), (0,0), (0,0)], some "A line", 9/10⟩,
              ⟨[(0,0), (100,0), (100,100), (0,100)], some "B line", 4/5⟩] =
      [("B line", 4/5, 10000), ("A line", 9/10, 0)] := by
  exact ⟨by norm_num, by decide⟩

/-- C7: within each output category no two candidates share a case-folded
value, and every output candidate is the first entry carrying its
case-folded value in the category's classified, salience-ranked list. -/
theorem dedup_unique_first (items : List RawItem) :
    (heuristicCandidates items).1.Pairwise
      (fun x y => lowerStr x.value ≠ lowerStr y.value) ∧
    (heuristicCandidates items).2.Pairwise
      (fun x y => lowerStr x.value ≠ lowerStr y.value) ∧
    (∀ x ∈ (heuristicCandidates items).1, ∃ l1 l2,
      (classifyAux ((rankedOf items).take 20)).1 = l1 ++ x :: l2 ∧
      ∀ y ∈ l1, lowerStr y.value ≠ lowerStr x.value) ∧
    (∀ x ∈ (heuristicCandidates items).2, ∃ l1 l2,
      (classifyAux ((rankedOf items).take 20)).2 = l1 ++ x :: l2 ∧
      ∀ y ∈ l1, lowerStr y.value ≠ lowerStr x.value) := by
  refine ⟨?_, ?_, ?_, ?_⟩
  · exact (dedupAux_pairwise [] _).sublist (List.take_sublist _ _)
  · exact (dedupAux_pairwise [] _).sublist (List.take_sublist _ _)
  · intro x hx
    obtain ⟨-, -, l1, l2, hdec, hall⟩ := mem_dedupAux (List.mem_of_mem_take hx)
    exact ⟨l1, l2, hdec, hall⟩
  · intro x hx
    obtain ⟨-, -, l1, l2, hdec, hall⟩ := mem_dedupAux (List.mem_of_mem_take hx)
    exact ⟨l1, l2, hdec, hall⟩

/-- The spec's duplicate scenario: "HAMLET" then "hamlet". -/
def demoC7 : List RawItem :=
  [⟨[(0,0), (10,0), (10,10), (0,10)], some "HAMLET", 9/10⟩,
   ⟨[(0,0), (10,0), (10,5), (0,5)], some "hamlet", 4/5⟩]

/-- Witness for C7: of "HAMLET" and "hamlet" only the first-ranked entry
survives, and the surviving list is pairwise distinct after case folding. -/
theorem dedup_unique_first_witness :
    (heuristicCandidates demoC7).1.Pairwise
      (fun x y => lowerStr x.value ≠ lowerStr y.value) ∧
    heuristicCandidates demoC7 = ([⟨"HAMLET", 9/10⟩], []) :=
  ⟨(dedup_unique_first demoC7).1, by decide⟩

/-- The normalized text is truncated to at most 200 characters. -/
theorem norm_length_le (s : String) : (norm s).length ≤ 200 := by
  show ((joinSp (pyWords [] (s.data.map fun c =>
      if c = '\n' then ' ' else c))).take 200).length ≤ 200
  rw [List.length_take]
  exact min_le_left _ _

/-- Any candidate produced by the classification stage has a value of
normalized length between 3 and 200. -/
theorem mem_classify_bounds {l : List Line} {c : Cand}
    (h : c ∈ (classifyAux l).1 ∨ c ∈ (classifyAux l).2) :
    3 ≤ c.value.length ∧ c.value.length ≤ 200 := by
  rw [classifyAux_eq] at h
  rcases h with h | h <;>
  · obtain ⟨x, hx, rfl⟩ := List.mem_map.mp h
    have hf := (List.mem_filter.mp hx).2
    simp only [Bool.and_eq_true, decide_eq_true_eq] at hf
    exact ⟨hf.1, norm_length_le _⟩

/-- C8: each output category holds at most 5 candidates, and every output
value has length between 3 and 200 characters. -/
theorem output_bounds (items : List RawItem) :
    (heuristicCandidates items).1.length ≤ 5 ∧
    (heuristicCandidates items).2.length ≤ 5 ∧
    (∀ c ∈ (heuristicCandidates items).1,
      3 ≤ c.value.length ∧ c.value.length ≤ 200) ∧
    (∀ c ∈ (heuristicCandidates items).2,
      3 ≤ c.value.length ∧ c.value.length ≤ 200) := by
  refine ⟨dedup_length_le _, dedup_length_le _, ?_, ?_⟩
  · intro c hc
    exact mem_classify_bounds (Or.inl (mem_of_mem_dedup hc))
  · intro c hc
    exact mem_classify_bounds (Or.inr (mem_of_mem_dedup hc))

/-- A single-detection batch used to witness C8. -/
def demoC8 : List RawItem :=
  [⟨[(0,0), (10,0), (10,10), (0,10)], some "Moby Dick", 9/10⟩]

/-- Witness for C8 at a concrete batch. -/
theorem output_bounds_witness :
    (heuristicCandidates demoC8).1.length ≤ 5 ∧
    heuristicCandidates demoC8 = ([⟨"Moby Dick", 9/10⟩], []) :=
  ⟨(output_bounds demoC8).1, by decide⟩

/-- The handler result determined by the outcome of the try block. -/
theorem handler_of_handlerTry (dS3 : String → String → Except String String)
    (dHttp : String → Except String String)
    (runOcr : String → Except String (List RawItem)) (e : Event) :
    ∀ r, handlerTry dS3 dHttp runOcr e = r →
      handler dS3 dHttp runOcr e = (match r with
        | Except.ok p => (⟨p.1, p.2, "en", none⟩ : HandlerResult)
        | Except.error m => ⟨[], [], "en", some m⟩) := by
  intro r hr
  unfold handler
  rw [hr]
  cases r with
  | ok p => rcases p with ⟨t, a⟩; rfl
  | error m => rfl

/-- C9: the handler is a total function of the event and the collaborator
oracles — no exception propagates — and always returns the uniform shape:
`language_guess` is the fixed constant "en"; a missing image location, a
failing download (either form), a failing recognition run, and generally any
failing try block all yield a result whose `error` field carries the message
and whose candidate lists are empty; a successful try block yields its two
candidate lists with no `error` field. -/
theorem handler_uniform (dS3 : String → String → Except String String)
    (dHttp : String → Except String String)
    (runOcr : String → Except String (List RawItem)) (e : Event) :
    (handler dS3 dHttp runOcr e).language_guess = "en" ∧
    (∀ m, handlerTry dS3 dHttp runOcr e = Except.error m →
      handler dS3 dHttp runOcr e = ⟨[], [], "en", some m⟩) ∧
    (∀ p, handlerTry dS3 dHttp runOcr e = Except.ok p →
      handler dS3 dHttp runOcr e = ⟨p.1, p.2, "en", none⟩) ∧
    ((truthy e.s3Bucket && truthy e.s3Key) = false → truthy e.imageUrl = false →
      handler dS3 dHttp runOcr e =
        ⟨[], [], "en",
         some "Missing image location: provide s3Bucket/s3Key or imageUrl"⟩) ∧
    (∀ m, (truthy e.s3Bucket && truthy e.s3Key) = true →
      dS3 (e.s3Bucket.getD "") (e.s3Key.getD "") = Except.error m →
      handler dS3 dHttp runOcr e = ⟨[], [], "en", some m⟩) ∧
    (∀ m, (truthy e.s3Bucket && truthy e.s3Key) = false → truthy e.imageUrl = true →
      dHttp (e.imageUrl.getD "") = Except.error m →
      handler dS3 dHttp runOcr e = ⟨[], [], "en", some m⟩) ∧
    (∀ path m, (truthy e.s3Bucket && truthy e.s3Key) = true →
      dS3 (e.s3Bucket.getD "") (e.s3Key.getD "") = Except.ok path →
      runOcr path = Except.error m →
      handler dS3 dHttp runOcr e = ⟨[], [], "en", some m⟩) ∧
    (∀ m, (handler dS3 dHttp runOcr e).error = some m →
      (handler dS3 dHttp runOcr e).title_candidates = [] ∧
      (handler dS3 dHttp runOcr e).author_candidates = []) := by
  have hmain := handler_of_handlerTry dS3 dHttp runOcr e
  refine ⟨?_, ?_, ?_, ?_, ?_, ?_, ?_, ?_⟩
  · rcases hE : handlerTry dS3 dHttp runOcr e with m | p
    · rw [hmain _ hE]
    · rw [hmain _ hE]
  · intro m hm
    exact hmain _ hm
  · intro p hp
    exact hmain _ hp
  · intro h1 h2
    refine hmain (Except.error
      "Missing image location: provide s3Bucket/s3Key or imageUrl") ?_
    simp [handlerTry, h1, h2]
  · intro m h1 hd
    refine hmain (Except.error m) ?_
    simp [handlerTry, h1, hd, Except.bind]
  · intro m h1 h2 hd
    refine hmain (Except.error m) ?_
    simp [handlerTry, h1, h2, hd, Except.bind]
  · intro path m h1 hd ho
    refine hmain (Except.error m) ?_
    simp [handlerTry, h1, hd, ho, Except.bind]
  · intro m hm
    rcases hE : handlerTry dS3 dHttp runOcr e with m' | p
    · rw [hmain _ hE]
      exact ⟨rfl, rfl⟩
    · rw [hmain _ hE] at hm
      simp at hm

/-- Witness for C9: a failing S3 transfer and a missing image location both
produce the uniform error result. -/
theorem handler_uniform_witness :
    handler (fun _ _ => Except.error "transfer failed")
        (fun _ => Except.error "http failed")
        (fun _ => Except.ok []) ⟨some "b", some "k", none⟩ =
      ⟨[], [], "en", some "transfer failed"⟩ ∧
    handler (fun _ _ => Except.error "transfer failed")
        (fun _ => Except.error "http failed")
        (fun _ => Except.ok []) ⟨none, none, none⟩ =
      ⟨[], [], "en",
       some "Missing image location: provide s3Bucket/s3Key or imageUrl"⟩ := by
  constructor
  · exact (handler_uniform _ _ _ _).2.2.2.2.1 "transfer failed" rfl rfl
  · exact (handler_uniform _ _ _ _).2.2.2.1 rfl rfl

end OcrWorker
